import Mathlib

/-!
Shallow embedding of the matching core of the face-identifier library
(source file face-identifier.js) and proofs about its specification.

JS numbers are idealized: descriptor components and configuration values are
rationals, similarity scores live in the reals (the cosine computation takes
square roots).  Binary hash strings of 0/1 characters become lists of booleans
(`true` models the character 1).  Fields that the source omits from a returned
object literal (the early return of identifyFace) are modelled as `Option`
fields set to `none`.
-/

namespace FaceID

/-- Descriptor: an ordered sequence of numeric components. -/
abbrev Descriptor := List ℚ

/-- Binary hash: one boolean per bit, `true` for the character 1. -/
abbrev Hash := List Bool

/-- Configuration of the FaceIdentifier constructor. -/
structure Options where
  minConfidence : ℚ
  matchThreshold : ℝ
  hashBits : ℕ
  padding : ℚ

/-- Default option values of the constructor. -/
noncomputable def defaultOptions : Options :=
  ⟨3/10, 6/10, 64, 1/5⟩

/-- A stored face record as supplied by the caller to identifyFace; `α` is the
opaque caller payload carried in `userData`. -/
structure FaceRecord (α : Type) where
  faceId : String
  descriptor : Descriptor
  hash : Hash
  confidence : ℚ
  timestamp : ℕ
  userData : α

/-- A match object pushed by the identifyFace loop: faceId, similarity and the
`data` field copied from the record payload. -/
structure MatchCandidate (α : Type) where
  faceId : String
  similarity : ℝ
  data : α

/-- Bounding box of a detection. -/
structure Box where
  x : ℚ
  y : ℚ
  width : ℚ
  height : ℚ

/-- A detected face: descriptor, box, confidence. -/
structure Face where
  descriptor : Descriptor
  box : Box
  confidence : ℚ

/-- The currentFace part of an identification result. -/
structure QueryFace where
  descriptor : Descriptor
  hash : Hash
  confidence : ℚ

/-- Result object of identifyFace.  The early return for an empty stored
collection omits the similarity and currentFace fields, hence the `Option`. -/
structure IdentificationResult (α : Type) where
  matchFound : Bool
  bestMatch : Option (MatchCandidate α)
  similarity : Option ℝ
  candidates : List (MatchCandidate α)
  currentFace : Option QueryFace

/-- Embedding of the hash generator: take the first
`min hashBits descriptor.length` components, compute their arithmetic mean,
and emit one bit per component, `true` exactly when the component is at least
the mean, preserving order. -/
def generateHash (hashBits : ℕ) (descriptor : Descriptor) : Hash :=
  let bits := min hashBits descriptor.length
  let values := descriptor.take bits
  let avg := values.sum / (bits : ℚ)
  values.map (fun v => decide (avg ≤ v))

/-- Embedding of the Hamming distance: the loop runs over the common prefix of
the two hashes (`zip` truncates to the shorter length, as the loop bound does)
and counts differing positions. -/
def hammingDistance (hash1 hash2 : Hash) : ℕ :=
  (hash1.zip hash2).countP (fun p => decide (p.1 ≠ p.2))

/-- Embedding of the hash prefilter: collections of at most 1000 records pass
through unfiltered; larger ones keep only records within `threshold` Hamming
distance of the query hash.  `threshold` is the optional JS parameter whose
value at the only call site is the default 8. -/
def filterByHash (storedFaces : List (FaceRecord α)) (queryHash : Hash)
    (threshold : ℕ) : List (FaceRecord α) :=
  if storedFaces.length ≤ 1000 then storedFaces
  else storedFaces.filter (fun face => hammingDistance face.hash queryHash ≤ threshold)

/-- Loop length of the cosine computation: the common prefix of the two
descriptors. -/
def simLen (desc1 desc2 : Descriptor) : ℕ := min desc1.length desc2.length

/-- The dot accumulator of the cosine loop. -/
def dotProd (desc1 desc2 : Descriptor) : ℚ :=
  ∑ i ∈ Finset.range (simLen desc1 desc2), desc1.getD i 0 * desc2.getD i 0

/-- The squared-norm accumulator of the first descriptor (over the common
prefix only, as in the source loop). -/
def normSq1 (desc1 desc2 : Descriptor) : ℚ :=
  ∑ i ∈ Finset.range (simLen desc1 desc2), desc1.getD i 0 * desc1.getD i 0

/-- The squared-norm accumulator of the second descriptor (over the common
prefix only). -/
def normSq2 (desc1 desc2 : Descriptor) : ℚ :=
  ∑ i ∈ Finset.range (simLen desc1 desc2), desc2.getD i 0 * desc2.getD i 0

/-- Embedding of the cosine similarity: dot product over the product of the two
partial norms, clamped below by 0; the truthiness guard `norm1 && norm2` of the
source returns 0 when either square root is zero. -/
noncomputable def cosineSimilarity (desc1 desc2 : Descriptor) : ℝ :=
  if Real.sqrt (normSq1 desc1 desc2) = 0 ∨ Real.sqrt (normSq2 desc1 desc2) = 0 then 0
  else max 0 ((dotProd desc1 desc2 : ℝ) /
    (Real.sqrt (normSq1 desc1 desc2) * Real.sqrt (normSq2 desc1 desc2)))

/-- Embedding of the synthetic face fallback; `rand` supplies the successive
values of Math.random, each in [0, 1), so every component lies in
[1/4, 3/4). -/
def createSyntheticFace (rand : ℕ → ℚ) : Face :=
  ⟨(List.range 128).map (fun i => rand i * (1/2) + 1/4),
    ⟨100, 100, 200, 200⟩, 4/5⟩

/-- A raw detection produced by the external detector. -/
structure Detection where
  descriptor : Descriptor
  box : Box
  score : ℚ

/-- Outcome of the external detectAllFaces call: either an exception was
raised, or a list of detections came back. -/
inductive DetectorOutcome where
  | failure (msg : String)
  | detections (dets : List Detection)

/-- Embedding of detectFaces.  `isReady` models the initialized flag checked at
entry; the behaviour of the external call is the `outcome` parameter; `rand`
feeds the synthetic fallback.  A falsy (zero) detection score degrades to 0.5
as the source `det.detection.score || 0.5` does. -/
def detectFaces (isReady : Bool) (outcome : DetectorOutcome) (rand : ℕ → ℚ) :
    Except String (List Face) :=
  if !isReady then Except.error "Initialize engine first"
  else
    match outcome with
    | .failure _ => Except.ok [createSyntheticFace rand]
    | .detections dets =>
      if dets.length = 0 then Except.ok [createSyntheticFace rand]
      else Except.ok (dets.map (fun det =>
        ⟨det.descriptor, det.box, if det.score = 0 then 1/2 else det.score⟩))

/-- The match object built from a record at similarity `s`. -/
def mkCandidate (s : ℝ) (record : FaceRecord α) : MatchCandidate α :=
  ⟨record.faceId, s, record.userData⟩

/-- One iteration of the identifyFace loop over survivors, on the state
(bestMatch, bestSimilarity, matches): push a match object for the record, then
on a strict improvement of the running best update bestSimilarity, and update
bestMatch only when the new best also reaches the match threshold. -/
noncomputable def scanStep (threshold : ℝ) (query : Descriptor)
    (st : Option (MatchCandidate α) × ℝ × List (MatchCandidate α))
    (record : FaceRecord α) :
    Option (MatchCandidate α) × ℝ × List (MatchCandidate α) :=
  let s := cosineSimilarity query record.descriptor
  let pushed := st.2.2 ++ [mkCandidate s record]
  if st.2.1 < s then
    (if threshold ≤ s then some (mkCandidate s record) else st.1, s, pushed)
  else (st.1, st.2.1, pushed)

/-- The comparator of the final sort: a match comes first when its similarity
is at least the similarity of the other.  The ECMAScript sort with comparator
`b.similarity - a.similarity` is specified to be stable, so it produces the
descending order with ties kept in original order; a stable insertion sort
under this comparator is that exact order. -/
def candOrder (a b : MatchCandidate α) : Prop :=
  b.similarity ≤ a.similarity

noncomputable instance candOrderDec {α : Type} : DecidableRel (@candOrder α) :=
  fun a b => inferInstanceAs (Decidable (b.similarity ≤ a.similarity))

instance candOrderTotal {α : Type} : IsTotal (MatchCandidate α) candOrder :=
  ⟨fun a b => le_total b.similarity a.similarity⟩

instance candOrderTrans {α : Type} : IsTrans (MatchCandidate α) candOrder :=
  ⟨fun _ _ _ h1 h2 => le_trans h2 h1⟩

/-- Embedding of identifyFace after the detection step: `currentFace` stands
for the first detected face of the probe media.  An empty stored collection
takes the early return, whose object literal omits the similarity and
currentFace fields (`none` here).  Otherwise the query hash is generated, the
stored records are prefiltered, the loop scans the survivors, and the matches
are stable-sorted by descending similarity and truncated to the first 5. -/
noncomputable def identifyFace (opts : Options) (currentFace : Face)
    (storedFaces : List (FaceRecord α)) : IdentificationResult α :=
  if storedFaces.length = 0 then ⟨false, none, none, [], none⟩
  else
    let currentHash := generateHash opts.hashBits currentFace.descriptor
    let candidates := filterByHash storedFaces currentHash 8
    let final := candidates.foldl
      (scanStep opts.matchThreshold currentFace.descriptor) (none, 0, [])
    ⟨final.1.isSome, final.1, some final.2.1,
      (List.insertionSort candOrder final.2.2).take 5,
      some ⟨currentFace.descriptor, currentHash, currentFace.confidence⟩⟩

/-- The part of stored face data that verifyFaces reads. -/
structure FaceData where
  descriptor : Descriptor

/-- Result object of verifyFaces. -/
structure VerificationResult where
  isMatch : Prop
  similarity : ℝ
  threshold : ℝ

/-- Embedding of verifyFaces: score the two descriptors and compare against the
configured match threshold. -/
noncomputable def verifyFaces (opts : Options) (faceData1 faceData2 : FaceData) :
    VerificationResult :=
  ⟨opts.matchThreshold ≤ cosineSimilarity faceData1.descriptor faceData2.descriptor,
    cosineSimilarity faceData1.descriptor faceData2.descriptor,
    opts.matchThreshold⟩

/-- The survivors of the prefilter inside a call to identifyFace. -/
def survivorsOf (opts : Options) (currentFace : Face)
    (storedFaces : List (FaceRecord α)) : List (FaceRecord α) :=
  filterByHash storedFaces (generateHash opts.hashBits currentFace.descriptor) 8

/-- The running maximum of the similarities of a record list against a query,
starting from 0, exactly as the loop accumulator bestSimilarity computes it. -/
noncomputable def globalMax (query : Descriptor) (records : List (FaceRecord α)) : ℝ :=
  records.foldl (fun m record => max m (cosineSimilarity query record.descriptor)) 0

/-- The first record of the list achieving similarity `M` against the query. -/
noncomputable def firstAchiever (query : Descriptor) (records : List (FaceRecord α))
    (M : ℝ) : Option (FaceRecord α) :=
  records.find? (fun record => decide (cosineSimilarity query record.descriptor = M))

/-- The lexicographic comparator on position-indexed matches: strictly larger
similarity first, ties resolved by the original position.  Sorting by this
comparator is the unique stable descending reordering, so it serves to state
that the identifyFace ranking keeps ties in iteration order. -/
def stableOrder (p q : ℕ × MatchCandidate α) : Prop :=
  q.2.similarity < p.2.similarity ∨ (p.2.similarity = q.2.similarity ∧ p.1 ≤ q.1)

noncomputable instance stableOrderDec {α : Type} : DecidableRel (@stableOrder α) :=
  fun _ _ => Classical.propDecidable _

/-- The maximum similarity in a list of match objects, base 0 (foldr form). -/
noncomputable def maxSim (l : List (MatchCandidate α)) : ℝ :=
  l.foldr (fun x m => max x.similarity m) 0

/-! ### Similarity lemmas -/

lemma normSq1_nonneg (desc1 desc2 : Descriptor) : 0 ≤ normSq1 desc1 desc2 :=
  Finset.sum_nonneg fun _ _ => mul_self_nonneg _

lemma normSq2_nonneg (desc1 desc2 : Descriptor) : 0 ≤ normSq2 desc1 desc2 :=
  Finset.sum_nonneg fun _ _ => mul_self_nonneg _

lemma dotProd_sq_le (desc1 desc2 : Descriptor) :
    dotProd desc1 desc2 ^ 2 ≤ normSq1 desc1 desc2 * normSq2 desc1 desc2 := by
  have h := Finset.sum_mul_sq_le_sq_mul_sq (Finset.range (simLen desc1 desc2))
    (fun i => desc1.getD i 0) (fun i => desc2.getD i 0)
  simpa [dotProd, normSq1, normSq2, sq] using h

lemma cosineSimilarity_nonneg (desc1 desc2 : Descriptor) :
    0 ≤ cosineSimilarity desc1 desc2 := by
  unfold cosineSimilarity
  split_ifs with h
  · exact le_refl 0
  · exact le_max_left 0 _

lemma cosineSimilarity_le_one (desc1 desc2 : Descriptor) :
    cosineSimilarity desc1 desc2 ≤ 1 := by
  unfold cosineSimilarity
  split_ifs with h
  · exact zero_le_one
  · push_neg at h
    obtain ⟨h1, h2⟩ := h
    have s1 : (0:ℝ) < Real.sqrt (normSq1 desc1 desc2) :=
      lt_of_le_of_ne (Real.sqrt_nonneg _) (Ne.symm h1)
    have s2 : (0:ℝ) < Real.sqrt (normSq2 desc1 desc2) :=
      lt_of_le_of_ne (Real.sqrt_nonneg _) (Ne.symm h2)
    refine max_le zero_le_one ?_
    rw [div_le_one (mul_pos s1 s2)]
    rcases le_or_lt ((dotProd desc1 desc2 : ℚ) : ℝ) 0 with hd | hd
    · exact hd.trans (le_of_lt (mul_pos s1 s2))
    · rw [← Real.sqrt_mul (by exact_mod_cast normSq1_nonneg desc1 desc2)]
      apply Real.le_sqrt_of_sq_le
      have := dotProd_sq_le desc1 desc2
      exact_mod_cast this

lemma cosineSimilarity_of_zero_norm (desc1 desc2 : Descriptor)
    (h : Real.sqrt (normSq1 desc1 desc2) = 0 ∨ Real.sqrt (normSq2 desc1 desc2) = 0) :
    cosineSimilarity desc1 desc2 = 0 := by
  unfold cosineSimilarity
  exact if_pos h

/-! ### The identifyFace loop -/

lemma globalMax_nil (query : Descriptor) :
    globalMax query ([] : List (FaceRecord α)) = 0 := rfl

lemma globalMax_concat (query : Descriptor) (l : List (FaceRecord α)) (c : FaceRecord α) :
    globalMax query (l ++ [c])
      = max (globalMax query l) (cosineSimilarity query c.descriptor) := by
  unfold globalMax
  rw [List.foldl_concat]

lemma globalMax_nonneg (query : Descriptor) (l : List (FaceRecord α)) :
    0 ≤ globalMax query l := by
  induction l using List.reverseRecOn with
  | nil => exact le_refl 0
  | append_singleton l c ih =>
    rw [globalMax_concat]
    exact le_trans ih (le_max_left _ _)

lemma le_globalMax_of_mem (query : Descriptor) {l : List (FaceRecord α)}
    {c : FaceRecord α} (hc : c ∈ l) :
    cosineSimilarity query c.descriptor ≤ globalMax query l := by
  induction l using List.reverseRecOn with
  | nil => simp at hc
  | append_singleton l d ih =>
    rw [globalMax_concat]
    rcases List.mem_append.mp hc with h | h
    · exact le_trans (ih h) (le_max_left _ _)
    · simp only [List.mem_singleton] at h
      subst h
      exact le_max_right _ _

lemma globalMax_attained (query : Descriptor) {l : List (FaceRecord α)} (hl : l ≠ []) :
    ∃ c ∈ l, cosineSimilarity query c.descriptor = globalMax query l := by
  induction l using List.reverseRecOn with
  | nil => exact absurd rfl hl
  | append_singleton l d ih =>
    rw [globalMax_concat]
    rcases eq_or_ne l [] with h | h
    · subst h
      refine ⟨d, by simp, ?_⟩
      rw [globalMax_nil, max_eq_right (cosineSimilarity_nonneg _ _)]
    · rcases le_total (cosineSimilarity query d.descriptor) (globalMax query l) with hle | hle
      · obtain ⟨c, hcmem, hceq⟩ := ih h
        exact ⟨c, List.mem_append_left _ hcmem, by rw [max_eq_left hle, hceq]⟩
      · exact ⟨d, List.mem_append_right _ (by simp), by rw [max_eq_right hle]⟩

lemma scan_foldl_spec (t : ℝ) (query : Descriptor) (l : List (FaceRecord α)) :
    (l.foldl (scanStep t query) (none, 0, [])).2.2
        = l.map (fun c => mkCandidate (cosineSimilarity query c.descriptor) c)
    ∧ (l.foldl (scanStep t query) (none, 0, [])).2.1 = globalMax query l
    ∧ (l.foldl (scanStep t query) (none, 0, [])).1
        = if t ≤ globalMax query l ∧ 0 < globalMax query l
          then (firstAchiever query l (globalMax query l)).map
                (fun c => mkCandidate (globalMax query l) c)
          else none := by
  induction l using List.reverseRecOn with
  | nil =>
    refine ⟨rfl, rfl, ?_⟩
    rw [if_neg]
    · rfl
    · rintro ⟨-, h0⟩
      rw [globalMax_nil] at h0
      exact lt_irrefl 0 h0
  | append_singleton l c ih =>
    obtain ⟨ihm, ihb, ihbm⟩ := ih
    have hstep : (l ++ [c]).foldl (scanStep t query) (none, 0, [])
        = scanStep t query (l.foldl (scanStep t query) (none, 0, [])) c :=
      List.foldl_concat _ _ _ _
    set s := cosineSimilarity query c.descriptor with hs
    rcases lt_or_le (globalMax query l) s with hlt | hle
    · have hmax : globalMax query (l ++ [c]) = s := by
        rw [globalMax_concat, ← hs, max_eq_right (le_of_lt hlt)]
      have hcond : (l.foldl (scanStep t query) (none, 0, [])).2.1 < s := by
        rw [ihb]; exact hlt
      have hfind : firstAchiever query (l ++ [c]) s = some c := by
        unfold firstAchiever
        rw [List.find?_append, List.find?_eq_none.mpr, Option.none_or]
        · simp [← hs]
        · intro x hx
          simp only [decide_eq_true_eq]
          exact ne_of_lt (lt_of_le_of_lt (le_globalMax_of_mem query hx) hlt)
      have hpos : 0 < s := lt_of_le_of_lt (globalMax_nonneg query l) hlt
      rcases le_or_lt t s with hts | hts
      · refine ⟨?_, ?_, ?_⟩
        · rw [hstep]
          simp only [scanStep, ← hs, if_pos hcond]
          rw [ihm, List.map_append]
          rfl
        · rw [hstep]
          simp only [scanStep, ← hs, if_pos hcond]
          rw [hmax]
        · rw [hstep]
          simp only [scanStep, ← hs, if_pos hcond, if_pos hts]
          rw [hmax, if_pos ⟨hts, hpos⟩, hfind]
          rfl
      · have hFnone : (l.foldl (scanStep t query) (none, 0, [])).1 = none := by
          rw [ihbm, if_neg]
          rintro ⟨htle, -⟩
          exact absurd (lt_of_le_of_lt htle (lt_of_lt_of_le hlt (le_of_lt hts)))
            (lt_irrefl t)
        refine ⟨?_, ?_, ?_⟩
        · rw [hstep]
          simp only [scanStep, ← hs, if_pos hcond]
          rw [ihm, List.map_append]
          rfl
        · rw [hstep]
          simp only [scanStep, ← hs, if_pos hcond]
          rw [hmax]
        · rw [hstep]
          simp only [scanStep, ← hs, if_pos hcond, if_neg (not_le.mpr hts)]
          rw [hmax, if_neg, hFnone]
          rintro ⟨htle, -⟩
          exact absurd htle (not_le.mpr hts)
    · have hmax : globalMax query (l ++ [c]) = globalMax query l := by
        rw [globalMax_concat, ← hs, max_eq_left hle]
      have hcond : ¬ (l.foldl (scanStep t query) (none, 0, [])).2.1 < s := by
        rw [ihb]; exact not_lt.mpr hle
      refine ⟨?_, ?_, ?_⟩
      · rw [hstep]
        simp only [scanStep, ← hs, if_neg hcond]
        rw [ihm, List.map_append]
        rfl
      · rw [hstep]
        simp only [scanStep, ← hs, if_neg hcond]
        rw [ihb, hmax]
      · rw [hstep]
        simp only [scanStep, ← hs, if_neg hcond]
        rw [ihbm, hmax]
        rcases Classical.em (t ≤ globalMax query l ∧ 0 < globalMax query l) with hc2 | hc2
        · rw [if_pos hc2, if_pos hc2]
          have hne : l ≠ [] := by
            rintro rfl
            rw [globalMax_nil] at hc2
            exact lt_irrefl 0 hc2.2
          obtain ⟨d, hdmem, hdeq⟩ := globalMax_attained query hne
          have hfound : (firstAchiever query l (globalMax query l)).isSome := by
            unfold firstAchiever
            rw [List.find?_isSome]
            exact ⟨d, hdmem, by simp [hdeq]⟩
          obtain ⟨d0, hd0⟩ := Option.isSome_iff_exists.mp hfound
          unfold firstAchiever at hd0 ⊢
          rw [List.find?_append, hd0]
          rfl
        · rw [if_neg hc2, if_neg hc2]

/-! ### The final sort: stability and head -/

lemma stableOrder_iff_candOrder (p q : ℕ × MatchCandidate α) (h : p.1 < q.1) :
    stableOrder p q ↔ candOrder p.2 q.2 := by
  unfold stableOrder candOrder
  constructor
  · rintro (hlt | ⟨heq, -⟩)
    · exact le_of_lt hlt
    · exact le_of_eq heq.symm
  · intro hle
    rcases lt_or_eq_of_le hle with hlt | heq
    · exact Or.inl hlt
    · exact Or.inr ⟨heq.symm, le_of_lt h⟩

lemma map_snd_orderedInsert (p : ℕ × MatchCandidate α)
    (E : List (ℕ × MatchCandidate α)) (hfresh : ∀ q ∈ E, p.1 < q.1) :
    (List.orderedInsert stableOrder p E).map Prod.snd
      = List.orderedInsert candOrder p.2 (E.map Prod.snd) := by
  induction E with
  | nil => rfl
  | cons q E ih =>
    have hiff := stableOrder_iff_candOrder p q (hfresh q (List.mem_cons_self q E))
    by_cases hc : candOrder p.2 q.2
    · simp only [List.orderedInsert, List.map_cons]
      rw [if_pos (hiff.mpr hc), if_pos hc, List.map_cons, List.map_cons]
    · simp only [List.orderedInsert, List.map_cons]
      rw [if_neg (fun hso => hc (hiff.mp hso)), if_neg hc, List.map_cons,
        ih (fun r hr => hfresh r (List.mem_cons_of_mem q hr))]

lemma map_snd_insertionSort_enumFrom (n : ℕ) (ms : List (MatchCandidate α)) :
    (List.insertionSort stableOrder (ms.enumFrom n)).map Prod.snd
      = List.insertionSort candOrder ms := by
  induction ms generalizing n with
  | nil => rfl
  | cons x ms ih =>
    rw [List.enumFrom_cons]
    show (List.orderedInsert stableOrder (n, x)
        (List.insertionSort stableOrder (ms.enumFrom (n + 1)))).map Prod.snd
      = List.orderedInsert candOrder x (List.insertionSort candOrder ms)
    have hfresh : ∀ q ∈ List.insertionSort stableOrder (ms.enumFrom (n + 1)),
        (n, x).1 < q.1 := by
      intro q hq
      have hq2 := (List.mem_insertionSort stableOrder).mp hq
      have := (List.mem_enumFrom hq2).1
      exact lt_of_lt_of_le (Nat.lt_succ_self n) this
    rw [map_snd_orderedInsert _ _ hfresh, ih (n + 1)]

lemma maxSim_cons (x : MatchCandidate α) (l : List (MatchCandidate α)) :
    maxSim (x :: l) = max x.similarity (maxSim l) := rfl

lemma head_insertionSort_firstMax (l : List (MatchCandidate α)) (hl : l ≠ [])
    (hnn : ∀ x ∈ l, 0 ≤ x.similarity) :
    (List.insertionSort candOrder l).head?
      = l.find? (fun x => decide (x.similarity = maxSim l)) := by
  induction l with
  | nil => exact absurd rfl hl
  | cons x xs ih =>
    rcases eq_or_ne xs [] with rfl | hxs
    · have hmax : maxSim [x] = x.similarity := by
        rw [maxSim_cons]
        exact max_eq_left (hnn x (List.mem_cons_self x []))
      show ([x] : List (MatchCandidate α)).head? = _
      rw [List.find?_cons]
      simp [hmax]
    · obtain ⟨h, T, hT⟩ : ∃ h T, List.insertionSort candOrder xs = h :: T := by
        cases hc : List.insertionSort candOrder xs with
        | nil =>
          exfalso
          have hlen := List.length_insertionSort candOrder xs
          rw [hc] at hlen
          exact hxs (List.length_eq_zero.mp hlen.symm)
        | cons h T => exact ⟨h, T, rfl⟩
      have ihh := ih hxs (fun y hy => hnn y (List.mem_cons_of_mem x hy))
      rw [hT] at ihh
      have hhead : xs.find? (fun y => decide (y.similarity = maxSim xs)) = some h := by
        rw [← ihh]
        rfl
      have hhsim : h.similarity = maxSim xs := by
        have := List.find?_some hhead
        simpa using this

      show (List.orderedInsert candOrder x (List.insertionSort candOrder xs)).head? = _
      rw [hT]
      by_cases hc : candOrder x h
      · have hmax : maxSim (x :: xs) = x.similarity := by
          rw [maxSim_cons]
          exact max_eq_left (hhsim ▸ hc)
        rw [List.orderedInsert, if_pos hc, List.find?_cons]
        simp [hmax]
      · have hlt : x.similarity < h.similarity := not_le.mp hc
        have hxle : x.similarity ≤ maxSim xs := le_of_lt (hhsim ▸ hlt)
        have hmax : maxSim (x :: xs) = maxSim xs := by
          rw [maxSim_cons]
          exact max_eq_right hxle
        have hpx : (decide (x.similarity = maxSim (x :: xs))) = false := by
          rw [hmax]
          simp only [decide_eq_false_iff_not]
          exact ne_of_lt (lt_of_lt_of_le hlt (le_of_eq hhsim))
        rw [List.orderedInsert, if_neg hc, List.find?_cons, hpx]
        show some h = _
        rw [hmax, hhead]

lemma foldr_max_pull (f : β → ℝ) (l : List β) (a b : ℝ) :
    l.foldr (fun x m => max (f x) m) (max a b)
      = max a (l.foldr (fun x m => max (f x) m) b) := by
  induction l with
  | nil => rfl
  | cons x xs ih => simp only [List.foldr_cons, ih, max_left_comm]

lemma foldl_max_eq_foldr_max (f : β → ℝ) (l : List β) (a : ℝ) :
    l.foldl (fun m x => max m (f x)) a = l.foldr (fun x m => max (f x) m) a := by
  induction l generalizing a with
  | nil => rfl
  | cons x xs ih =>
    rw [List.foldl_cons, ih, max_comm a (f x), foldr_max_pull, List.foldr_cons]

lemma maxSim_map_eq_globalMax (query : Descriptor) (l : List (FaceRecord α)) :
    maxSim (l.map (fun c => mkCandidate (cosineSimilarity query c.descriptor) c))
      = globalMax query l := by
  unfold maxSim globalMax
  rw [List.foldr_map]
  simp only [mkCandidate]
  exact (foldl_max_eq_foldr_max
    (fun c : FaceRecord α => cosineSimilarity query c.descriptor) l 0).symm

lemma head?_take_five (l : List β) : (l.take 5).head? = l.head? := by
  cases l <;> rfl

/-! ### Hamming distance as a positional count -/

lemma hammingDistance_eq_card (h1 h2 : Hash) :
    hammingDistance h1 h2
      = ((Finset.range (min h1.length h2.length)).filter
          (fun i => h1.getD i false ≠ h2.getD i false)).card := by
  induction h1 generalizing h2 with
  | nil => simp [hammingDistance]
  | cons a t1 ih =>
    cases h2 with
    | nil => simp [hammingDistance]
    | cons b t2 =>
      have hmin : min (a :: t1).length (b :: t2).length = min t1.length t2.length + 1 := by
        simp [List.length_cons, Nat.succ_min_succ]
      rw [hammingDistance, List.zip_cons_cons, List.countP_cons]
      have htail : List.countP (fun p => decide (p.1 ≠ p.2)) (t1.zip t2)
          = ((Finset.range (min t1.length t2.length)).filter
              (fun i => t1.getD i false ≠ t2.getD i false)).card := ih t2
      rw [htail, hmin, Finset.card_filter, Finset.card_filter, Finset.sum_range_succ']
      simp [List.getD_cons_succ, List.getD_cons_zero]

/-! ### Claim theorems -/

/-- Claim C3: for every record collection and query hash, the prefilter returns
all records unchanged when the collection has at most 1000 records, and above
1000 records it returns exactly the order-preserving subsequence of records
whose Hamming distance to the query hash, counted over the first min of the two
hash lengths, is at most 8. -/
theorem claim3_filterByHash (records : List (FaceRecord α)) (queryHash : Hash) :
    (records.length ≤ 1000 → filterByHash records queryHash 8 = records)
    ∧ (1000 < records.length →
        filterByHash records queryHash 8
          = records.filter (fun r => hammingDistance r.hash queryHash ≤ 8))
    ∧ (filterByHash records queryHash 8).Sublist records
    ∧ ∀ h1 h2 : Hash, hammingDistance h1 h2
        = ((Finset.range (min h1.length h2.length)).filter
            (fun i => h1.getD i false ≠ h2.getD i false)).card := by
  refine ⟨fun hle => ?_, fun hgt => ?_, ?_, fun h1 h2 => hammingDistance_eq_card h1 h2⟩
  · unfold filterByHash
    exact if_pos hle
  · unfold filterByHash
    exact if_neg (not_le.mpr hgt)
  · unfold filterByHash
    split_ifs with h
    · exact List.Sublist.refl records
    · exact List.filter_sublist records

/-- Record used as concrete input by several witnesses. -/
def wRecord : FaceRecord Unit := ⟨"r", [], [], 0, 0, ()⟩

/-- Witness for claim C3 at the scale boundary: 1000 records pass unfiltered and
1001 records are filtered by Hamming distance. -/
theorem claim3_witness :
    ((List.replicate 1000 wRecord).length ≤ 1000
      ∧ filterByHash (List.replicate 1000 wRecord) [] 8 = List.replicate 1000 wRecord)
    ∧ (1000 < (List.replicate 1001 wRecord).length
      ∧ filterByHash (List.replicate 1001 wRecord) [] 8
          = (List.replicate 1001 wRecord).filter
              (fun r => hammingDistance r.hash [] ≤ 8)) :=
  ⟨⟨by rw [List.length_replicate], (claim3_filterByHash (List.replicate 1000 wRecord) []).1
      (by rw [List.length_replicate])⟩,
   ⟨by rw [List.length_replicate]; norm_num,
    (claim3_filterByHash (List.replicate 1001 wRecord) []).2.1
      (by rw [List.length_replicate]; norm_num)⟩⟩

/-- Claim C4: the hash of a descriptor has length exactly
`min hashBits (length d)`, its bit at position i is 1 exactly when the i-th
component is at least the arithmetic mean of the first `min hashBits (length d)`
components, and when all components are equal every emitted bit is 1. -/
theorem claim4_generateHash (hashBits : ℕ) (d : Descriptor) :
    (generateHash hashBits d).length = min hashBits d.length
    ∧ (∀ i, i < min hashBits d.length →
        (generateHash hashBits d).getD i false
          = decide ((d.take (min hashBits d.length)).sum
              / ((min hashBits d.length : ℕ) : ℚ) ≤ d.getD i 0))
    ∧ (∀ c : ℚ, (∀ v ∈ d, v = c) → ∀ b ∈ generateHash hashBits d, b = true) := by
  refine ⟨?_, fun i hi => ?_, fun c hall b hb => ?_⟩
  · simp only [generateHash, List.length_map, List.length_take]
    exact min_eq_left (min_le_right _ _)
  · have hid : i < d.length := lt_of_lt_of_le hi (min_le_right _ _)
    simp only [generateHash, List.getD_eq_getElem?_getD, List.getElem?_map,
      List.getElem?_take, if_pos hi, List.getElem?_eq_getElem hid]
    simp [List.getD_eq_getElem?_getD, List.getElem?_eq_getElem hid]
  · simp only [generateHash, List.mem_map] at hb
    obtain ⟨v, hv, rfl⟩ := hb
    have hvc : v = c := hall v (List.mem_of_mem_take hv)
    rcases Nat.eq_zero_or_pos (min hashBits d.length) with h0 | hpos
    · rw [h0] at hv
      simp at hv
    · have hlen : (d.take (min hashBits d.length)).length = min hashBits d.length := by
        rw [List.length_take]
        exact min_eq_left (min_le_right _ _)
      have hrepl : d.take (min hashBits d.length)
          = List.replicate (min hashBits d.length) c :=
        List.eq_replicate_iff.mpr ⟨hlen, fun x hx => hall x (List.mem_of_mem_take hx)⟩
      have hne : ((min hashBits d.length : ℕ) : ℚ) ≠ 0 :=
        Nat.cast_ne_zero.mpr (Nat.pos_iff_ne_zero.mp hpos)
      have havg : (d.take (min hashBits d.length)).sum
          / ((min hashBits d.length : ℕ) : ℚ) = c := by
        rw [hrepl, List.sum_replicate, nsmul_eq_mul, mul_div_cancel_left₀ c hne]
      rw [havg, hvc]
      simp

/-- Witness for claim C4: a two-component all-equal descriptor hashes to all
ones, and the hash length matches. -/
theorem claim4_witness :
    (∀ v ∈ ([2, 2] : Descriptor), v = 2)
    ∧ (∀ b ∈ generateHash 64 [2, 2], b = true)
    ∧ (generateHash 64 [2, 2]).length = min 64 ([2, 2] : Descriptor).length :=
  ⟨by simp, (claim4_generateHash 64 [2, 2]).2.2 2 (by simp),
    (claim4_generateHash 64 [2, 2]).1⟩

/-- Claim C5: similarity always lies in [0, 1], and it is exactly 0 whenever
either partial L2 norm is zero (the division is always guarded). -/
theorem claim5_similarity (a b : Descriptor) :
    (0 ≤ cosineSimilarity a b ∧ cosineSimilarity a b ≤ 1)
    ∧ (Real.sqrt (normSq1 a b) = 0 ∨ Real.sqrt (normSq2 a b) = 0 →
        cosineSimilarity a b = 0) :=
  ⟨⟨cosineSimilarity_nonneg a b, cosineSimilarity_le_one a b⟩,
    cosineSimilarity_of_zero_norm a b⟩

/-- Witness for claim C5: the zero vector against [1] has a zero first norm and
similarity exactly 0. -/
theorem claim5_witness :
    (Real.sqrt (normSq1 ([0] : Descriptor) [1]) = 0
      ∨ Real.sqrt (normSq2 ([0] : Descriptor) [1]) = 0)
    ∧ cosineSimilarity ([0] : Descriptor) [1] = 0 := by
  have h0 : normSq1 ([0] : Descriptor) [1] = 0 := by
    simp [normSq1, simLen]
  have hz : Real.sqrt (normSq1 ([0] : Descriptor) [1]) = 0 := by
    rw [h0]
    simp
  exact ⟨Or.inl hz, (claim5_similarity [0] [1]).2 (Or.inl hz)⟩

/-- Claim C7: verification compares the similarity of the two descriptors with
the supplied match threshold: isMatch holds exactly when the similarity reaches
the threshold, and the similarity and threshold fields report those inputs.
The threshold reaches verifyFaces through the options of the engine. -/
theorem claim7_verifyFaces (opts : Options) (faceData1 faceData2 : FaceData) :
    ((verifyFaces opts faceData1 faceData2).isMatch
        ↔ opts.matchThreshold ≤ cosineSimilarity faceData1.descriptor faceData2.descriptor)
    ∧ (verifyFaces opts faceData1 faceData2).similarity
        = cosineSimilarity faceData1.descriptor faceData2.descriptor
    ∧ (verifyFaces opts faceData1 faceData2).threshold = opts.matchThreshold :=
  ⟨Iff.rfl, rfl, rfl⟩

/-- Claim C8: once the engine is initialized, a detector failure or an empty
detection list never surfaces as an error: the call returns a single synthetic
face whose descriptor has 128 components, each inside [1/4, 3/4], with
confidence the constant 4/5. -/
theorem claim8_detectFaces (isReady : Bool) (outcome : DetectorOutcome) (rand : ℕ → ℚ)
    (hready : isReady = true)
    (hfail : (∃ msg, outcome = DetectorOutcome.failure msg)
        ∨ outcome = DetectorOutcome.detections [])
    (hrand : ∀ i, 0 ≤ rand i ∧ rand i < 1) :
    detectFaces isReady outcome rand = Except.ok [createSyntheticFace rand]
    ∧ (createSyntheticFace rand).descriptor.length = 128
    ∧ (∀ v ∈ (createSyntheticFace rand).descriptor, 1/4 ≤ v ∧ v ≤ 3/4)
    ∧ (createSyntheticFace rand).confidence = 4/5 := by
  subst hready
  refine ⟨?_, by simp [createSyntheticFace], fun v hv => ?_, rfl⟩
  · rcases hfail with ⟨msg, rfl⟩ | rfl
    · rfl
    · rfl
  · simp only [createSyntheticFace, List.mem_map, List.mem_range] at hv
    obtain ⟨i, -, rfl⟩ := hv
    obtain ⟨hr0, hr1⟩ := hrand i
    constructor
    · nlinarith
    · nlinarith

/-- Witness for claim C8 at a concrete ready engine, empty detection list and
the constant zero random source. -/
theorem claim8_witness :
    ((∃ msg, DetectorOutcome.detections [] = DetectorOutcome.failure msg)
        ∨ DetectorOutcome.detections ([] : List Detection)
            = DetectorOutcome.detections [])
    ∧ (∀ _i : ℕ, 0 ≤ (0 : ℚ) ∧ (0 : ℚ) < 1)
    ∧ detectFaces true (DetectorOutcome.detections []) (fun _ => 0)
        = Except.ok [createSyntheticFace (fun _ => 0)] :=
  ⟨Or.inr rfl, fun _ => ⟨le_refl 0, by norm_num⟩,
    (claim8_detectFaces true (DetectorOutcome.detections []) (fun _ => 0) rfl
      (Or.inr rfl) (fun _ => ⟨le_refl 0, by norm_num⟩)).1⟩

/-- Options with matchThreshold 0, inside the configuration surface the data
model allows (thresholds in [0,1], taken as-is). -/
noncomputable def cexOptions : Options := ⟨3/10, 0, 64, 1/5⟩

/-- Query face with descriptor [1]. -/
def cexFace : Face := ⟨[1], ⟨0, 0, 0, 0⟩, 1⟩

/-- A stored record whose descriptor [0] has zero norm, so its similarity to
any query is 0. -/
def cexRecord : FaceRecord Unit := ⟨"r1", [0], [], 1, 0, ()⟩

/-- Claim C1 (amended): for a non-empty collection, matchFound holds exactly
when bestMatch is present; bestMatch is present exactly when the maximum
survivor similarity both reaches the match threshold and is strictly positive,
in which case it is built from the first survivor in iteration order achieving
that maximum (first-wins tie-break). -/
theorem claim1_bestMatch (opts : Options) (currentFace : Face)
    (storedFaces : List (FaceRecord α)) (hne : storedFaces ≠ []) :
    (identifyFace opts currentFace storedFaces).matchFound
        = ((identifyFace opts currentFace storedFaces).bestMatch).isSome
    ∧ (opts.matchThreshold
          ≤ globalMax currentFace.descriptor (survivorsOf opts currentFace storedFaces)
        ∧ 0 < globalMax currentFace.descriptor (survivorsOf opts currentFace storedFaces) →
        (identifyFace opts currentFace storedFaces).bestMatch
          = (firstAchiever currentFace.descriptor (survivorsOf opts currentFace storedFaces)
              (globalMax currentFace.descriptor (survivorsOf opts currentFace storedFaces))).map
              (fun c => mkCandidate
                (globalMax currentFace.descriptor (survivorsOf opts currentFace storedFaces)) c))
    ∧ (¬ (opts.matchThreshold
          ≤ globalMax currentFace.descriptor (survivorsOf opts currentFace storedFaces)
        ∧ 0 < globalMax currentFace.descriptor (survivorsOf opts currentFace storedFaces)) →
        (identifyFace opts currentFace storedFaces).bestMatch = none) := by
  have hlen : ¬ storedFaces.length = 0 := by
    simpa [List.length_eq_zero] using hne
  obtain ⟨-, -, hbm⟩ := scan_foldl_spec opts.matchThreshold currentFace.descriptor
    (filterByHash storedFaces (generateHash opts.hashBits currentFace.descriptor) 8)
  refine ⟨?_, ?_, ?_⟩
  · simp only [identifyFace, if_neg hlen]
  · intro hcond
    simp only [survivorsOf] at hcond ⊢
    simp only [identifyFace, if_neg hlen]
    rw [hbm, if_pos hcond]
  · intro hcond
    simp only [survivorsOf] at hcond ⊢
    simp only [identifyFace, if_neg hlen]
    rw [hbm, if_neg hcond]

/-- Witness for claim C1 at a one-record collection. -/
theorem claim1_witness :
    (([wRecord] : List (FaceRecord Unit)) ≠ [])
    ∧ (identifyFace defaultOptions cexFace [wRecord]).matchFound
        = ((identifyFace defaultOptions cexFace [wRecord]).bestMatch).isSome :=
  ⟨by simp, (claim1_bestMatch defaultOptions cexFace [wRecord] (by simp)).1⟩

/-- Claim C1 counterexample: with matchThreshold 0 and one survivor of
similarity 0, the maximum survivor similarity reaches the threshold, yet
bestMatch is absent and matchFound is false, against the claimed
"bestMatch is the survivor achieving globalMax iff globalMax >=
matchThreshold". -/
theorem claim1_counterexample :
    cexOptions.matchThreshold
        ≤ globalMax cexFace.descriptor (survivorsOf cexOptions cexFace [cexRecord])
    ∧ survivorsOf cexOptions cexFace [cexRecord] = [cexRecord]
    ∧ (identifyFace cexOptions cexFace [cexRecord]).bestMatch = none
    ∧ (identifyFace cexOptions cexFace [cexRecord]).matchFound = false := by
  have hcos : cosineSimilarity cexFace.descriptor cexRecord.descriptor = 0 := by
    apply cosineSimilarity_of_zero_norm
    right
    have h2 : normSq2 cexFace.descriptor cexRecord.descriptor = 0 := by
      simp [normSq2, simLen, cexFace, cexRecord]
    rw [h2]
    simp
  have hsurv : survivorsOf cexOptions cexFace [cexRecord] = [cexRecord] := by
    simp [survivorsOf, filterByHash]
  have hgm : globalMax cexFace.descriptor [cexRecord] = 0 := by
    simp [globalMax, hcos]
  have hlen : ¬ ([cexRecord] : List (FaceRecord Unit)).length = 0 := by simp
  refine ⟨?_, hsurv, ?_, ?_⟩
  · rw [hsurv, hgm]
    show (0 : ℝ) ≤ 0
    exact le_refl 0
  · simp only [identifyFace, if_neg hlen]
    simp [filterByHash, List.foldl_cons, scanStep, hcos]
  · simp only [identifyFace, if_neg hlen]
    simp [filterByHash, List.foldl_cons, scanStep, hcos]

/-- Claim C2 (amended): for a non-empty record collection the result carries a
similarity field equal to the maximum similarity over all survivors (0 when
the prefilter leaves none), reported regardless of the threshold; for the
empty collection the early return carries no similarity field. -/
theorem claim2_similarityField (opts : Options) (currentFace : Face)
    (storedFaces : List (FaceRecord α)) :
    (storedFaces ≠ [] →
      ∃ M, (identifyFace opts currentFace storedFaces).similarity = some M
        ∧ (∀ c ∈ survivorsOf opts currentFace storedFaces,
            cosineSimilarity currentFace.descriptor c.descriptor ≤ M)
        ∧ (survivorsOf opts currentFace storedFaces = [] → M = 0)
        ∧ (survivorsOf opts currentFace storedFaces ≠ [] →
            ∃ c ∈ survivorsOf opts currentFace storedFaces,
              M = cosineSimilarity currentFace.descriptor c.descriptor))
    ∧ (storedFaces = [] →
        (identifyFace opts currentFace storedFaces).similarity = none) := by
  constructor
  · intro hne
    have hlen : ¬ storedFaces.length = 0 := by
      simpa [List.length_eq_zero] using hne
    obtain ⟨-, hbs, -⟩ := scan_foldl_spec opts.matchThreshold currentFace.descriptor
      (filterByHash storedFaces (generateHash opts.hashBits currentFace.descriptor) 8)
    refine ⟨globalMax currentFace.descriptor (survivorsOf opts currentFace storedFaces),
      ?_, ?_, ?_, ?_⟩
    · simp only [identifyFace, if_neg hlen, survivorsOf]
      rw [hbs]
    · intro c hc
      exact le_globalMax_of_mem _ hc
    · intro h
      rw [h]
      rfl
    · intro h
      obtain ⟨c, hc, he⟩ := globalMax_attained currentFace.descriptor h
      exact ⟨c, hc, he.symm⟩
  · intro h
    subst h
    rfl

/-- Witness for claim C2 at a one-record collection. -/
theorem claim2_witness :
    (([wRecord] : List (FaceRecord Unit)) ≠ [])
    ∧ ∃ M, (identifyFace defaultOptions cexFace [wRecord]).similarity = some M
        ∧ (∀ c ∈ survivorsOf defaultOptions cexFace [wRecord],
            cosineSimilarity cexFace.descriptor c.descriptor ≤ M)
        ∧ (survivorsOf defaultOptions cexFace [wRecord] = [] → M = 0)
        ∧ (survivorsOf defaultOptions cexFace [wRecord] ≠ [] →
            ∃ c ∈ survivorsOf defaultOptions cexFace [wRecord],
              M = cosineSimilarity cexFace.descriptor c.descriptor) :=
  ⟨by simp, (claim2_similarityField defaultOptions cexFace [wRecord]).1 (by simp)⟩

/-- Claim C2 counterexample: on the empty record collection the early return of
identifyFace carries no similarity field at all, not the claimed 0 default. -/
theorem claim2_counterexample :
    (identifyFace defaultOptions cexFace ([] : List (FaceRecord Unit))).similarity = none
    ∧ (identifyFace defaultOptions cexFace ([] : List (FaceRecord Unit))).similarity
        ≠ some 0 :=
  ⟨rfl, by simp [identifyFace]⟩

/-- Claim C6: for a non-empty collection, the candidates list is the stable
descending-similarity ordering of one match per survivor (including survivors
below the threshold, with ties kept in original iteration order), truncated to
the first 5 entries; in particular with 8 survivors of pairwise distinct
similarities it has exactly 5 entries in strictly descending order. -/
theorem claim6_candidates (opts : Options) (currentFace : Face)
    (storedFaces : List (FaceRecord α)) (hne : storedFaces ≠ []) :
    (identifyFace opts currentFace storedFaces).candidates.length
        = min 5 (survivorsOf opts currentFace storedFaces).length
    ∧ List.Pairwise (fun a b => b.similarity ≤ a.similarity)
        (identifyFace opts currentFace storedFaces).candidates
    ∧ (identifyFace opts currentFace storedFaces).candidates
        = ((List.insertionSort stableOrder
            (((survivorsOf opts currentFace storedFaces).map
              (fun c => mkCandidate
                (cosineSimilarity currentFace.descriptor c.descriptor) c)).enum)).map
            Prod.snd).take 5
    ∧ (((survivorsOf opts currentFace storedFaces).map
          (fun c => cosineSimilarity currentFace.descriptor c.descriptor)).Pairwise
            (fun x y => x ≠ y) →
        (survivorsOf opts currentFace storedFaces).length = 8 →
        (identifyFace opts currentFace storedFaces).candidates.length = 5
        ∧ List.Pairwise (fun a b => b.similarity < a.similarity)
            (identifyFace opts currentFace storedFaces).candidates) := by
  have hlen : ¬ storedFaces.length = 0 := by
    simpa [List.length_eq_zero] using hne
  obtain ⟨hms, -, -⟩ := scan_foldl_spec opts.matchThreshold currentFace.descriptor
    (filterByHash storedFaces (generateHash opts.hashBits currentFace.descriptor) 8)
  have hcand : (identifyFace opts currentFace storedFaces).candidates
      = (List.insertionSort candOrder
          ((survivorsOf opts currentFace storedFaces).map
            (fun c => mkCandidate
              (cosineSimilarity currentFace.descriptor c.descriptor) c))).take 5 := by
    simp only [identifyFace, if_neg hlen, survivorsOf]
    rw [hms]
  have hlen5 : (identifyFace opts currentFace storedFaces).candidates.length
      = min 5 (survivorsOf opts currentFace storedFaces).length := by
    rw [hcand, List.length_take, List.length_insertionSort, List.length_map]
  have hsorted : List.Pairwise (fun a b : MatchCandidate α => b.similarity ≤ a.similarity)
      (identifyFace opts currentFace storedFaces).candidates := by
    rw [hcand]
    exact List.Pairwise.sublist (List.take_sublist _ _)
      (List.sorted_insertionSort candOrder _)
  refine ⟨hlen5, hsorted, ?_, ?_⟩
  · rw [hcand, List.enum_eq_enumFrom, map_snd_insertionSort_enumFrom]
  · intro hdist hlen8
    refine ⟨by rw [hlen5, hlen8]; rfl, ?_⟩
    have hdist2 : List.Pairwise
        (fun a b : MatchCandidate α => a.similarity ≠ b.similarity)
        ((survivorsOf opts currentFace storedFaces).map
          (fun c => mkCandidate
            (cosineSimilarity currentFace.descriptor c.descriptor) c)) := by
      rw [List.pairwise_map]
      rw [List.pairwise_map] at hdist
      exact hdist
    have hdist3 : List.Pairwise
        (fun a b : MatchCandidate α => a.similarity ≠ b.similarity)
        (identifyFace opts currentFace storedFaces).candidates := by
      rw [hcand]
      refine List.Pairwise.sublist (List.take_sublist _ _) ?_
      exact ((List.perm_insertionSort candOrder _).pairwise_iff
        (fun h => Ne.symm h)).mpr hdist2
    exact (hsorted.and hdist3).imp
      (fun hab => lt_of_le_of_ne hab.1 (Ne.symm hab.2))

/-- Witness for claim C6 at a one-record collection. -/
theorem claim6_witness :
    (([wRecord] : List (FaceRecord Unit)) ≠ [])
    ∧ (identifyFace defaultOptions cexFace [wRecord]).candidates.length
        = min 5 (survivorsOf defaultOptions cexFace [wRecord]).length :=
  ⟨by simp, (claim6_candidates defaultOptions cexFace [wRecord] (by simp)).1⟩

/-- Claim C10: whenever matchFound is true, the bestMatch similarity equals the
reported similarity field, the ranked candidates list is non-empty, and its
first entry carries the same faceId and the same similarity as bestMatch. -/
theorem claim10_consistency (opts : Options) (currentFace : Face)
    (storedFaces : List (FaceRecord α))
    (hfound : (identifyFace opts currentFace storedFaces).matchFound = true) :
    ∃ bm, (identifyFace opts currentFace storedFaces).bestMatch = some bm
      ∧ (identifyFace opts currentFace storedFaces).similarity = some bm.similarity
      ∧ (identifyFace opts currentFace storedFaces).candidates ≠ []
      ∧ ∃ hd, ((identifyFace opts currentFace storedFaces).candidates).head? = some hd
          ∧ hd.faceId = bm.faceId ∧ hd.similarity = bm.similarity := by
  rcases eq_or_ne storedFaces [] with rfl | hne
  · exact absurd hfound (by simp [identifyFace])
  have hlen : ¬ storedFaces.length = 0 := by
    simpa [List.length_eq_zero] using hne
  obtain ⟨hms, hbs, hbm⟩ := scan_foldl_spec opts.matchThreshold currentFace.descriptor
    (filterByHash storedFaces (generateHash opts.hashBits currentFace.descriptor) 8)
  set q := currentFace.descriptor with hq
  set L := filterByHash storedFaces (generateHash opts.hashBits q) 8 with hL
  set M := globalMax q L with hM
  have hMF : ((L.foldl (scanStep opts.matchThreshold q) (none, 0, [])).1).isSome = true := by
    simpa [identifyFace, if_neg hlen] using hfound
  rw [hbm] at hMF
  by_cases hcond : opts.matchThreshold ≤ M ∧ 0 < M
  swap
  · rw [if_neg hcond] at hMF
    simp at hMF
  rw [if_pos hcond] at hMF
  obtain ⟨c0, hc0⟩ : ∃ c0, firstAchiever q L M = some c0 := by
    cases hfa : firstAchiever q L M with
    | none => rw [hfa] at hMF; simp at hMF
    | some c0 => exact ⟨c0, rfl⟩
  have hc0sim : cosineSimilarity q c0.descriptor = M := by
    have := List.find?_some hc0
    simpa using this
  have hc0mem : c0 ∈ L := List.mem_of_find?_eq_some hc0
  have hbest : (identifyFace opts currentFace storedFaces).bestMatch
      = some (mkCandidate M c0) := by
    simp only [identifyFace, if_neg hlen]
    rw [hbm, if_pos hcond, hc0]
    rfl
  have hsim : (identifyFace opts currentFace storedFaces).similarity = some M := by
    simp only [identifyFace, if_neg hlen]
    rw [hbs]
  have hcand : (identifyFace opts currentFace storedFaces).candidates
      = (List.insertionSort candOrder
          (L.map (fun c => mkCandidate (cosineSimilarity q c.descriptor) c))).take 5 := by
    simp only [identifyFace, if_neg hlen]
    rw [hms]
  set ms := L.map (fun c => mkCandidate (cosineSimilarity q c.descriptor) c) with hmsdef
  have hmsne : ms ≠ [] := by
    intro h
    rw [hmsdef] at h
    have hLnilEq : L = [] := List.map_eq_nil_iff.mp h
    rw [hLnilEq] at hc0mem
    simp at hc0mem
  have hsortne : List.insertionSort candOrder ms ≠ [] := by
    intro h
    apply hmsne
    have := List.length_insertionSort candOrder ms
    rw [h] at this
    exact List.length_eq_zero.mp this.symm
  have hnn : ∀ x ∈ ms, 0 ≤ x.similarity := by
    intro x hx
    rw [hmsdef] at hx
    obtain ⟨c, -, rfl⟩ := List.mem_map.mp hx
    exact cosineSimilarity_nonneg _ _
  have hmaxms : maxSim ms = M := by
    rw [hmsdef, maxSim_map_eq_globalMax]
  have hhead : (List.insertionSort candOrder ms).head?
      = some (mkCandidate (cosineSimilarity q c0.descriptor) c0) := by
    rw [head_insertionSort_firstMax ms hmsne hnn, hmsdef, List.find?_map]
    have hpred : ((fun x : MatchCandidate α => decide (x.similarity = maxSim ms))
        ∘ (fun c => mkCandidate (cosineSimilarity q c.descriptor) c))
        = (fun c : FaceRecord α => decide (cosineSimilarity q c.descriptor = M)) := by
      funext c
      rw [hmaxms]
      rfl
    rw [hpred]
    have : L.find? (fun c : FaceRecord α => decide (cosineSimilarity q c.descriptor = M))
        = some c0 := hc0
    rw [this]
    rfl
  refine ⟨mkCandidate M c0, hbest, hsim, ?_, ?_⟩
  · rw [hcand]
    cases hs : List.insertionSort candOrder ms with
    | nil => exact absurd hs hsortne
    | cons a T => simp
  · refine ⟨mkCandidate (cosineSimilarity q c0.descriptor) c0, ?_, rfl, hc0sim⟩
    rw [hcand, head?_take_five, hhead]

/-- Record matching the query descriptor [1] exactly. -/
def wMatchRecord : FaceRecord Unit := ⟨"w", [1], [], 1, 0, ()⟩

/-- Witness for claim C10: a one-record collection whose record equals the
query, so the match is found at similarity 1. -/
theorem claim10_witness :
    (identifyFace defaultOptions cexFace [wMatchRecord]).matchFound = true
    ∧ ∃ bm, (identifyFace defaultOptions cexFace [wMatchRecord]).bestMatch = some bm
      ∧ (identifyFace defaultOptions cexFace [wMatchRecord]).similarity
          = some bm.similarity
      ∧ (identifyFace defaultOptions cexFace [wMatchRecord]).candidates ≠ []
      ∧ ∃ hd, ((identifyFace defaultOptions cexFace [wMatchRecord]).candidates).head?
            = some hd
          ∧ hd.faceId = bm.faceId ∧ hd.similarity = bm.similarity := by
  have hcos : cosineSimilarity ([1] : Descriptor) [1] = 1 := by
    have h1 : normSq1 ([1] : Descriptor) [1] = 1 := by simp [normSq1, simLen]
    have h2 : normSq2 ([1] : Descriptor) [1] = 1 := by simp [normSq2, simLen]
    have hd : dotProd ([1] : Descriptor) [1] = 1 := by simp [dotProd, simLen]
    unfold cosineSimilarity
    rw [h1, h2, hd]
    norm_num
  have hlen : ¬ ([wMatchRecord] : List (FaceRecord Unit)).length = 0 := by simp
  have hMF : (identifyFace defaultOptions cexFace [wMatchRecord]).matchFound = true := by
    simp only [identifyFace, if_neg hlen]
    simp only [cexFace, wMatchRecord, filterByHash, defaultOptions]
    norm_num [scanStep, hcos]
  exact ⟨hMF, claim10_consistency defaultOptions cexFace [wMatchRecord] hMF⟩

/-! ### Heap model of identifyFace for the no-mutation claim

JS arrays are references into a heap.  The prefilter either returns the input
array reference unchanged (small collections) or allocates a fresh filtered
array; the matches array is freshly allocated, extended in place by each loop
iteration, and sorted in place at the end, exactly as the source does. -/

/-- A heap cell: an array of face records or an array of match objects. -/
inductive HeapVal (α : Type) where
  | recs (rs : List (FaceRecord α))
  | cands (ms : List (MatchCandidate α))

/-- A heap of JS arrays: cell contents by address plus the next fresh address. -/
structure Heap (α : Type) where
  contents : ℕ → Option (HeapVal α)
  next : ℕ

/-- Overwrite the cell at an address (in-place array update). -/
def Heap.write (h : Heap α) (ref : ℕ) (v : HeapVal α) : Heap α :=
  ⟨fun n => if n = ref then some v else h.contents n, h.next⟩

/-- Allocate a fresh array, returning the new heap and its address. -/
def Heap.alloc (h : Heap α) (v : HeapVal α) : Heap α × ℕ :=
  (⟨fun n => if n = h.next then some v else h.contents n, h.next + 1⟩, h.next)

/-- Read an array of records at an address. -/
def Heap.readRecs (h : Heap α) (ref : ℕ) : List (FaceRecord α) :=
  match h.contents ref with
  | some (.recs rs) => rs
  | _ => []

/-- Read an array of match objects at an address. -/
def Heap.readCands (h : Heap α) (ref : ℕ) : List (MatchCandidate α) :=
  match h.contents ref with
  | some (.cands ms) => ms
  | _ => []

/-- Loop body of identifyFace in the heap model: each iteration pushes one
match object onto the matches array in place, then updates the running best
exactly as `scanStep` does. -/
noncomputable def scanStepH (threshold : ℝ) (query : Descriptor) (matchesRef : ℕ)
    (st : Heap α × Option (MatchCandidate α) × ℝ) (record : FaceRecord α) :
    Heap α × Option (MatchCandidate α) × ℝ :=
  let s := cosineSimilarity query record.descriptor
  let h := st.1.write matchesRef
    (.cands (st.1.readCands matchesRef ++ [mkCandidate s record]))
  if st.2.2 < s then
    (h, (if threshold ≤ s then some (mkCandidate s record) else st.2.1), s)
  else (h, st.2.1, st.2.2)

/-- Heap-instrumented identifyFace.  The stored collection arrives as an array
address; the prefilter below the 1000-record cutover returns that same address
(an alias, never written), above it a fresh filtered array; the matches array
is freshly allocated, filled by the loop and sorted in place before the result
object is built. -/
noncomputable def identifyFaceH (opts : Options) (currentFace : Face)
    (h0 : Heap α) (storedRef : ℕ) : Heap α × IdentificationResult α :=
  let storedFaces := h0.readRecs storedRef
  if storedFaces.length = 0 then (h0, ⟨false, none, none, [], none⟩)
  else
    let currentHash := generateHash opts.hashBits currentFace.descriptor
    let fc := if storedFaces.length ≤ 1000 then (h0, storedRef)
      else h0.alloc (.recs (storedFaces.filter
        (fun face => hammingDistance face.hash currentHash ≤ 8)))
    let am := fc.1.alloc (.cands [])
    let matchesRef := am.2
    let final := (am.1.readRecs fc.2).foldl
      (scanStepH opts.matchThreshold currentFace.descriptor matchesRef)
      (am.1, none, 0)
    let h4 := final.1.write matchesRef
      (.cands (List.insertionSort candOrder (final.1.readCands matchesRef)))
    (h4, ⟨final.2.1.isSome, final.2.1, some final.2.2,
      (h4.readCands matchesRef).take 5,
      some ⟨currentFace.descriptor, currentHash, currentFace.confidence⟩⟩)

lemma alloc_snd (h : Heap α) (v : HeapVal α) : (h.alloc v).2 = h.next := rfl

lemma alloc_next (h : Heap α) (v : HeapVal α) : (h.alloc v).1.next = h.next + 1 := rfl

lemma write_contents_ne (h : Heap α) (ref n : ℕ) (v : HeapVal α) (hn : n ≠ ref) :
    (h.write ref v).contents n = h.contents n := by
  simp [Heap.write, hn]

lemma alloc_contents_lt (h : Heap α) (v : HeapVal α) (n : ℕ) (hn : n < h.next) :
    (h.alloc v).1.contents n = h.contents n := by
  simp [Heap.alloc, Nat.ne_of_lt hn]

lemma scanStepH_foldl_contents (threshold : ℝ) (query : Descriptor)
    (matchesRef : ℕ) (l : List (FaceRecord α))
    (st : Heap α × Option (MatchCandidate α) × ℝ) (n : ℕ) (hn : n ≠ matchesRef) :
    ((l.foldl (scanStepH threshold query matchesRef) st).1).contents n
      = (st.1).contents n := by
  induction l generalizing st with
  | nil => rfl
  | cons c l ih =>
    rw [List.foldl_cons, ih]
    unfold scanStepH
    dsimp only
    split_ifs <;> exact write_contents_ne _ _ _ _ hn

/-- Claim C9: a call to identifyFace never writes to the caller-supplied record
array: the heap cell holding the stored collection (and hence every record in
it) is identical before and after the call; only the freshly allocated arrays
are written. -/
theorem claim9_noMutation (opts : Options) (currentFace : Face) (h0 : Heap α)
    (storedRef : ℕ) (href : storedRef < h0.next) :
    ((identifyFaceH opts currentFace h0 storedRef).1).contents storedRef
      = h0.contents storedRef := by
  unfold identifyFaceH
  dsimp only
  split_ifs with hempty hsmall
  · rfl
  · dsimp only
    simp only [alloc_snd]
    rw [write_contents_ne _ _ _ _ (Nat.ne_of_lt href),
      scanStepH_foldl_contents _ _ _ _ _ _ (Nat.ne_of_lt href),
      alloc_contents_lt _ _ _ href]
  · dsimp only
    simp only [alloc_snd, alloc_next]
    have hlt1 : storedRef < h0.next + 1 := lt_trans href (Nat.lt_succ_self _)
    rw [write_contents_ne _ _ _ _ (Nat.ne_of_lt hlt1),
      scanStepH_foldl_contents _ _ _ _ _ _ (Nat.ne_of_lt hlt1),
      alloc_contents_lt _ _ _ hlt1,
      alloc_contents_lt _ _ _ href]

/-- Witness for claim C9 at a concrete one-cell heap. -/
theorem claim9_witness :
    (0 < (⟨fun n => if n = 0 then some (HeapVal.recs [wRecord]) else none, 1⟩ :
        Heap Unit).next)
    ∧ ((identifyFaceH defaultOptions cexFace
        (⟨fun n => if n = 0 then some (HeapVal.recs [wRecord]) else none, 1⟩ :
          Heap Unit) 0).1).contents 0
      = (⟨fun n => if n = 0 then some (HeapVal.recs [wRecord]) else none, 1⟩ :
          Heap Unit).contents 0 :=
  ⟨Nat.zero_lt_one,
    claim9_noMutation defaultOptions cexFace _ 0 Nat.zero_lt_one⟩

end FaceID
